import Mathlib

/-!
Verification development for the sentiment-event pipeline backbone
(collector / analyzer / orchestrator stages, file-backed queue, retry
discipline around the analysis adapter).

The definitions below are a shallow embedding of the TypeScript source:
  * services/orchestrator/src/cli.ts  (OrchestratorRunner)
  * services/analyzer/src/analyzer.ts (AnalyzerRunner, trendPointFromDocs, topTopics)
  * packages/adapters/src/claude/index.ts (ClaudeClient.analyzeBatch, MockClaudeAdapter)
  * packages/shared (FileQueueClient)
JavaScript floating-point numbers are modelled as exact rationals (ℚ),
wall-clock milliseconds as ℕ, and JS integers-by-construction as ℤ/ℕ.
-/

namespace Spec2Proof

/-! ### Stable sorting

`Array.prototype.sort` with a comparator is a stable sort (ES2019).  Both the
orchestrator and the analyzer sort topic-count entries with the comparator
`(a, b) => b[1] - a[1]`, and the file queue sorts file names with the default
string comparator.  We model a stable comparator sort by straight insertion:
`ins le x l` places `x` before the first element `y` with `le x y`, which keeps
equal elements in their original relative order. -/

def ins (le : α → α → Bool) (x : α) : List α → List α
  | [] => [x]
  | y :: ys => if le x y then x :: y :: ys else y :: ins le x ys

def insSort (le : α → α → Bool) : List α → List α
  | [] => []
  | x :: xs => ins le x (insSort le xs)

theorem mem_ins (le : α → α → Bool) (x : α) (l : List α) (z : α) :
    z ∈ ins le x l ↔ z = x ∨ z ∈ l := by
  induction l with
  | nil => simp [ins]
  | cons y ys ih =>
    by_cases h : le x y
    · simp [ins, h]
    · simp only [ins, if_neg h, List.mem_cons, ih]
      tauto

theorem mem_insSort (le : α → α → Bool) (l : List α) (z : α) :
    z ∈ insSort le l ↔ z ∈ l := by
  induction l with
  | nil => simp [insSort]
  | cons x xs ih => simp [insSort, mem_ins, ih]

theorem length_ins (le : α → α → Bool) (x : α) (l : List α) :
    (ins le x l).length = l.length + 1 := by
  induction l with
  | nil => simp [ins]
  | cons y ys ih =>
    by_cases h : le x y
    · simp [ins, h]
    · simp [ins, h, ih]

theorem length_insSort (le : α → α → Bool) (l : List α) :
    (insSort le l).length = l.length := by
  induction l with
  | nil => simp [insSort]
  | cons x xs ih => simp [insSort, length_ins, ih]

theorem pairwise_ins (le : α → α → Bool)
    (htot : ∀ a b, le a b = true ∨ le b a = true)
    (htrans : ∀ a b c, le a b = true → le b c = true → le a c = true)
    (x : α) (l : List α) (h : l.Pairwise (fun a b => le a b = true)) :
    (ins le x l).Pairwise (fun a b => le a b = true) := by
  induction l with
  | nil => simp [ins]
  | cons y ys ih =>
    rcases List.pairwise_cons.mp h with ⟨hy, hys⟩
    by_cases hxy : le x y
    · rw [ins, if_pos hxy]
      refine List.pairwise_cons.mpr ⟨?_, h⟩
      intro z hz
      rcases List.mem_cons.mp hz with rfl | hz
      · exact hxy
      · exact htrans x y z hxy (hy z hz)
    · rw [ins, if_neg hxy]
      have hyx : le y x = true := by
        rcases htot x y with h1 | h1
        · exact absurd h1 hxy
        · exact h1
      refine List.pairwise_cons.mpr ⟨?_, ih hys⟩
      intro z hz
      rcases (mem_ins le x ys z).mp hz with rfl | hz
      · exact hyx
      · exact hy z hz

theorem pairwise_insSort (le : α → α → Bool)
    (htot : ∀ a b, le a b = true ∨ le b a = true)
    (htrans : ∀ a b c, le a b = true → le b c = true → le a c = true)
    (l : List α) :
    (insSort le l).Pairwise (fun a b => le a b = true) := by
  induction l with
  | nil => simp [insSort]
  | cons x xs ih => exact pairwise_ins le htot htrans x (insSort le xs) ih

theorem filter_ins_pos (le : α → α → Bool) (p : α → Bool) (x : α)
    (hx : p x = true) (hcl : ∀ y, p y = true → le x y = true) (l : List α) :
    (ins le x l).filter p = x :: l.filter p := by
  induction l with
  | nil => simp [ins, hx]
  | cons y ys ih =>
    by_cases hxy : le x y
    · simp [ins, hxy, hx]
    · have hpy : p y = false := by
        cases hy : p y
        · rfl
        · exact absurd (hcl y hy) hxy
      simp [ins, hxy, hpy, ih]

theorem filter_ins_neg (le : α → α → Bool) (p : α → Bool) (x : α)
    (hx : p x = false) (l : List α) :
    (ins le x l).filter p = l.filter p := by
  induction l with
  | nil => simp [ins, hx]
  | cons y ys ih =>
    by_cases hxy : le x y
    · simp [ins, hxy, hx]
    · cases hy : p y <;> simp [ins, hxy, hy, ih]

theorem filter_insSort (le : α → α → Bool) (p : α → Bool)
    (hcl : ∀ x y, p x = true → p y = true → le x y = true) (l : List α) :
    (insSort le l).filter p = l.filter p := by
  induction l with
  | nil => simp [insSort]
  | cons x xs ih =>
    cases hx : p x
    · rw [insSort, filter_ins_neg le p x hx, ih]
      simp [hx]
    · rw [insSort, filter_ins_pos le p x hx (fun y hy => hcl x y hx hy), ih]
      simp [hx]

/-- Keep the last `n` elements of a list.  Models both `array.slice(-n)` and the
`splice(0, length - n)` cap in the orchestrator. -/
def takeLast (n : ℕ) (l : List α) : List α := l.drop (l.length - n)

theorem takeLast_sublist (n : ℕ) (l : List α) : (takeLast n l).Sublist l :=
  List.drop_sublist _ l

/-! ### Data model (packages/schemas/src/schemas.ts) -/

/-- The `sentiment` enum of `SentimentDocSchema`: `z.enum(["neg","neu","pos"])`. -/
inductive Sentiment
  | neg
  | neu
  | pos
deriving DecidableEq

/-- SentimentDoc (schemas.ts).  The optional `emotions` object is never set by
any code path modelled here (the mock adapter omits it), so it is dropped. -/
structure SentimentDoc where
  postId : String
  sentiment : Sentiment
  score : ℚ
  topics : List String
  summary : String
deriving DecidableEq

/-- TrendPoint (schemas.ts); `tsISO` is modelled as milliseconds. -/
structure TrendPoint where
  ts : ℕ
  volume : ℤ
  avgScore : ℚ
  posShare : ℚ
  negShare : ℚ
  topTopics : List String
deriving DecidableEq

/-- AnalysisEnvelope (packages/shared, types): tagged union on `kind`. -/
inductive AnalysisEnvelope
  | sentimentDoc (data : SentimentDoc)
  | trendPoint (data : TrendPoint)
deriving DecidableEq

/-! ### Orchestrator state machine (services/orchestrator/src/cli.ts)

`topicCounts` is a plain JS object (`Record<string, number>`), modelled as an
association list in property-creation order.  Ordinary-object enumeration
(`Object.entries`, via ECMAScript `[[OwnPropertyKeys]]`) does not simply
follow creation order: keys that are canonical array indices (such as "2024")
are enumerated first, in ascending numeric order, and only the remaining
string keys follow in creation order.  `objectEntries` below applies that
reordering; the analyzer's counter is a JS `Map`, which really does enumerate
in pure insertion order and is modelled without it. -/

structure OrchState where
  volume : ℤ
  avgScore : ℚ
  posShare : ℚ
  negShare : ℚ
  topTopics : List String
  trendHistory : List TrendPoint
  topicCounts : List (String × ℤ)
  lastUpdated : Option ℕ
deriving DecidableEq

/-- `initialState()` in cli.ts. -/
def initialState : OrchState :=
  { volume := 0
    avgScore := 0
    posShare := 0
    negShare := 0
    topTopics := []
    trendHistory := []
    topicCounts := []
    lastUpdated := none }

/-- One step of `this.state.topicCounts[topic] = (this.state.topicCounts[topic] ?? 0) + 1`:
an existing key is updated in place, a new key is appended (JS insertion order). -/
def bumpTopic : List (String × ℤ) → String → List (String × ℤ)
  | [], topic => [(topic, 1)]
  | (t, c) :: rest, topic =>
    if t = topic then (t, c + 1) :: rest else (t, c) :: bumpTopic rest topic

/-- The comparator `(a, b) => b[1] - a[1]` used on topic-count entries:
`a` sorts no later than `b` exactly when `b`'s count is at most `a`'s. -/
def countLe (a b : String × ℤ) : Bool := decide (b.2 ≤ a.2)

/-- The numeric value of a digit string (most significant digit first). -/
def strNatVal (s : String) : ℕ :=
  s.data.foldl (fun acc c => acc * 10 + (c.toNat - 48)) 0

/-- Whether a property key is a canonical array index in the ECMAScript sense:
the canonical decimal form (nonempty, all digits, no leading zero except "0"
itself) of an integer below 2^32 - 1.  Such keys are enumerated before all
other string keys. -/
def isArrayIndexKey (s : String) : Bool :=
  !s.data.isEmpty && s.data.all Char.isDigit &&
    (s.data.length == 1 || !(s.data.head? == some '0')) &&
    decide (strNatVal s < 4294967295)

/-- `Object.entries` on an ordinary object whose properties were created in
the order of the association list: per `[[OwnPropertyKeys]]`, the canonical
array-index keys come first in ascending numeric order, then the remaining
string keys in creation order.  (Keys in a `topicCounts` list are distinct,
and the canonical form is injective, so the numeric sort order is
unambiguous.) -/
def objectEntries (counts : List (String × ℤ)) : List (String × ℤ) :=
  insSort (fun a b => decide (strNatVal a.1 ≤ strNatVal b.1))
      (counts.filter (fun e => isArrayIndexKey e.1)) ++
    counts.filter (fun e => !isArrayIndexKey e.1)

/-- `Object.entries(topicCounts).sort((a,b) => b[1]-a[1]).slice(0,5).map(([t]) => t)`
(cli.ts lines 131-134), with `Object.entries` enumerating per `objectEntries`. -/
def topTopicsFromCounts (counts : List (String × ℤ)) : List String :=
  ((insSort countLe (objectEntries counts)).take 5).map Prod.fst

/-- `OrchestratorRunner.updateStateFromDoc` (cli.ts lines 120-135). -/
def updateStateFromDoc (s : OrchState) (doc : SentimentDoc) : OrchState :=
  let volume : ℤ := s.volume + 1
  let avgScore : ℚ := s.avgScore + (doc.score - s.avgScore) / (volume : ℚ)
  let posIncrement : ℚ := if doc.sentiment = Sentiment.pos then 1 else 0
  let negIncrement : ℚ := if doc.sentiment = Sentiment.neg then 1 else 0
  let total : ℚ := (volume : ℚ)
  let posShare : ℚ := (s.posShare * (total - 1) + posIncrement) / total
  let negShare : ℚ := (s.negShare * (total - 1) + negIncrement) / total
  let topicCounts := doc.topics.foldl bumpTopic s.topicCounts
  { s with
    volume := volume
    avgScore := avgScore
    posShare := posShare
    negShare := negShare
    topicCounts := topicCounts
    topTopics := topTopicsFromCounts topicCounts }

/-- `OrchestratorRunner.updateStateFromTrend` (cli.ts lines 137-145).
`[...hist, trend].slice(-100)` keeps the most recent 100 points, and
`Object.fromEntries(trend.topTopics.map((topic, index) => [topic, trend.volume - index]))`
rebuilds `topicCounts` from the incoming point's topics. -/
def updateStateFromTrend (s : OrchState) (trend : TrendPoint) : OrchState :=
  { s with
    trendHistory := takeLast 100 (s.trendHistory ++ [trend])
    volume := trend.volume
    avgScore := trend.avgScore
    posShare := trend.posShare
    negShare := trend.negShare
    topTopics := trend.topTopics
    topicCounts := trend.topTopics.enum.map (fun e => (e.2, trend.volume - (e.1 : ℤ))) }

/-! ### Rules, triggers and the cooldown (cli.ts lines 147-199)

`RuleSchema` admits only `type: "avgScoreThreshold"`, so the type tag is not
modelled.  `lastRuleTrigger` is a JS `Map<string, number>`; `Map.set` replaces
an existing key in place and appends a new one. -/

structure RuleDefinition where
  id : String
  threshold : ℚ
  minVolume : ℤ
  agentName : String
  message : String
deriving DecidableEq

/-- TriggerRecord (cli.ts lines 75-82); `triggeredAtISO` is modelled as
milliseconds, and the side-channel `action` field is omitted. -/
structure TriggerRecord where
  ruleId : String
  agentName : String
  message : String
  triggeredAt : ℕ
deriving DecidableEq

/-- `Map.get`: the value of the first (unique) binding of `k`, if any. -/
def lookupMap : List (String × ℕ) → String → Option ℕ
  | [], _ => none
  | e :: rest, k => if e.1 = k then some e.2 else lookupMap rest k

/-- `Map.set`: replace the first binding of `k` in place, else append. -/
def setMap : List (String × ℕ) → String → ℕ → List (String × ℕ)
  | [], k, v => [(k, v)]
  | e :: rest, k, v =>
    if e.1 = k then (k, v) :: rest else e :: setMap rest k v

/-- The mutable pieces of `OrchestratorRunner` the aggregate-queue claims are
about: the aggregation state, the capped trigger history, the per-rule
last-firing map, and the trend points forwarded to `lava.publishTrend`.
`firedLog` is a ghost field recording every TriggerRecord ever appended,
uncapped, so that statements about "all triggers ever fired" survive the
50-record cap on `triggers`; the source mutates no such field. -/
structure RunState where
  state : OrchState
  triggers : List TriggerRecord
  lastRuleTrigger : List (String × ℕ)
  publishedTrends : List TrendPoint
  firedLog : List TriggerRecord
deriving DecidableEq

def initialRunState : RunState :=
  { state := initialState
    triggers := []
    lastRuleTrigger := []
    publishedTrends := []
    firedLog := [] }

/-- 5 minutes in milliseconds: the `5 * 60 * 1000` cooldown of cli.ts line 153. -/
def COOLDOWN_MS : ℕ := 5 * 60 * 1000

/-- `OrchestratorRunner.triggerRule` (cli.ts lines 163-188): append a record,
then `splice(0, length - 50)` keeps the most recent 50. -/
def triggerRule (now : ℕ) (rs : RunState) (rule : RuleDefinition) : RunState :=
  let record : TriggerRecord :=
    { ruleId := rule.id
      agentName := rule.agentName
      message := rule.message
      triggeredAt := now }
  { rs with
    triggers := takeLast 50 (rs.triggers ++ [record])
    firedLog := rs.firedLog ++ [record] }

/-- One iteration of the rule loop in `OrchestratorRunner.evaluateRules`
(cli.ts lines 148-160): fire when `avgScore < threshold && volume >= minVolume`,
unless `now - last < 5 * 60 * 1000` where `last` is the rule's map entry or 0.
Natural subtraction agrees with the JS check: when `now < last` the JS
difference is negative, hence `< COOLDOWN_MS`, and `now - last = 0 < COOLDOWN_MS`
here as well. -/
def evalRule (now : ℕ) (rs : RunState) (rule : RuleDefinition) : RunState :=
  if rs.state.avgScore < rule.threshold ∧ rule.minVolume ≤ rs.state.volume then
    let last := (lookupMap rs.lastRuleTrigger rule.id).getD 0
    if now - last < COOLDOWN_MS then rs
    else
      let fired := triggerRule now rs rule
      { fired with lastRuleTrigger := setMap fired.lastRuleTrigger rule.id now }
  else rs

/-- `OrchestratorRunner.evaluateRules` (cli.ts lines 147-161). -/
def evaluateRules (rules : List RuleDefinition) (now : ℕ) (rs : RunState) : RunState :=
  rules.foldl (evalRule now) rs

/-- `OrchestratorRunner.processMessage` (cli.ts lines 190-199): branch on the
envelope kind, forward a trend point to `lava.publishTrend`, stamp
`lastUpdatedISO`, then evaluate every rule.  `now` is the wall clock during
this message. -/
def processMessage (rules : List RuleDefinition) (rs : RunState)
    (msg : ℕ × AnalysisEnvelope) : RunState :=
  let now := msg.1
  let rs1 : RunState :=
    match msg.2 with
    | AnalysisEnvelope.sentimentDoc d =>
      { rs with state := { updateStateFromDoc rs.state d with lastUpdated := some now } }
    | AnalysisEnvelope.trendPoint tp =>
      { rs with
        state := { updateStateFromTrend rs.state tp with lastUpdated := some now }
        publishedTrends := rs.publishedTrends ++ [tp] }
  evaluateRules rules now rs1

/-- Process a timed sequence of envelopes from a fresh orchestrator. -/
def runAll (rules : List RuleDefinition) (msgs : List (ℕ × AnalysisEnvelope)) : RunState :=
  msgs.foldl (processMessage rules) initialRunState

/-! ### Analyzer stage (services/analyzer/src/analyzer.ts) -/

/-- The per-batch topic counter of `topTopics` (analyzer.ts lines 34-45): a JS
`Map` filled by `counter.set(topic, (counter.get(topic) ?? 0) + 1)` enumerates
in key-insertion order, exactly like `bumpTopic`. -/
def docTopicCounts (documents : List SentimentDoc) : List (String × ℤ) :=
  documents.foldl (fun counter doc => doc.topics.foldl bumpTopic counter) []

/-- `topTopics` in analyzer.ts: sort the counter entries with
`(a,b) => b[1] - a[1]`, take 5, keep the topic names. -/
def topTopicsOfDocs (documents : List SentimentDoc) : List String :=
  ((insSort countLe (docTopicCounts documents)).take 5).map Prod.fst

/-- `trendPointFromDocs` (analyzer.ts lines 47-64); `reduce((acc, doc) => acc + doc.score, 0)`
is the sum of the scores. -/
def trendPointFromDocs (now : ℕ) (documents : List SentimentDoc) : Option TrendPoint :=
  if documents.length = 0 then none
  else
    let volume : ℕ := documents.length
    let posCount : ℕ := (documents.filter (fun d => decide (d.sentiment = Sentiment.pos))).length
    let negCount : ℕ := (documents.filter (fun d => decide (d.sentiment = Sentiment.neg))).length
    some
      { ts := now
        volume := (volume : ℤ)
        avgScore := (documents.map SentimentDoc.score).sum / (volume : ℚ)
        posShare := (posCount : ℚ) / (volume : ℚ)
        negShare := (negCount : ℚ) / (volume : ℚ)
        topTopics := topTopicsOfDocs documents }

/-! ### Mock Claude adapter (packages/adapters/src/claude/index.ts lines 152-182)

`CleanPost` is modelled by the fields the mock adapter reads: `id`,
`textClean` and `meta.topics ?? []`. -/

structure CleanPost where
  id : String
  textClean : String
  metaTopics : List String
deriving DecidableEq

/-- Whether the character list `s` starts with `sub`. -/
def leadsWith : List Char → List Char → Bool
  | [], _ => true
  | _ :: _, [] => false
  | a :: as, b :: bs => a == b && leadsWith as bs

/-- Whether `sub` occurs contiguously in `s`: JS `String.prototype.includes`. -/
def hasSub (sub : List Char) : List Char → Bool
  | [] => sub.isEmpty
  | b :: bs => leadsWith sub (b :: bs) || hasSub sub bs

def includesSub (s sub : String) : Bool := hasSub sub.data s.data

/-- One item of `MockClaudeAdapter.analyzeBatch`'s `posts.map(...)`: keyword
polarity on the lower-cased clean text; `0.6` is idealized as the exact
rational 3/5, `summary` is `textClean.slice(0, 120)`. -/
def mockAnalyzeDoc (post : CleanPost) : SentimentDoc :=
  let lower := post.textClean.toLower
  let labelled : Sentiment × ℚ :=
    if includesSub lower "love" || includesSub lower "amazing" then (Sentiment.pos, 3 / 5)
    else if includesSub lower "hate" || includesSub lower "angry" then (Sentiment.neg, -(3 / 5))
    else (Sentiment.neu, 0)
  { postId := post.id
    sentiment := labelled.1
    score := labelled.2
    topics := post.metaTopics
    summary := String.mk (post.textClean.data.take 120) }

/-- `MockClaudeAdapter.analyzeBatch`: one document per post, in order. -/
def mockAnalyzeBatch (posts : List CleanPost) : List SentimentDoc :=
  posts.map mockAnalyzeDoc

/-- `SentimentDocSchema` (schemas.ts lines 36-54) restricted to the modelled
fields: nonempty `postId`, `score ∈ [-1,1]`, at most five nonempty topics,
nonempty `summary`.  The `sentiment` enum is enforced by the `Sentiment` type. -/
def SentimentDocValid (d : SentimentDoc) : Prop :=
  1 ≤ d.postId.length ∧ -1 ≤ d.score ∧ d.score ≤ 1 ∧
    d.topics.length ≤ 5 ∧ (∀ t ∈ d.topics, 1 ≤ t.length) ∧ 1 ≤ d.summary.length

instance (d : SentimentDoc) : Decidable (SentimentDocValid d) := by
  unfold SentimentDocValid
  infer_instance

/-! ### File queue (packages/shared, FileQueueClient)

The queue directory is a set of files `id.json`; `dequeueBatch` lists them,
sorts the names with the default string comparator, takes `maxItems` and reads
them without unlinking; `ack` unlinks, swallowing missing ids.  Because all ids
start with `Date.now()` and `Date.now()` renders with the same number of digits
throughout a run (13 digits from 2001 to 2286), filename order refines enqueue
order; theorems state that refinement as a hypothesis on the ids. -/

structure QMsg (α : Type) where
  id : String
  payload : α
  enqueuedAt : ℕ
deriving DecidableEq

def idLe (a b : QMsg α) : Bool := decide (a.id ≤ b.id)

/-- `FileQueueClient.dequeueBatch` (sort the directory entries, take `maxItems`,
read them non-destructively). -/
def dequeueBatch (files : List (QMsg α)) (maxItems : ℕ) : List (QMsg α) :=
  (insSort idLe files).take maxItems

/-- `FileQueueClient.ack`: unlink each id, missing ids are a no-op. -/
def ackIds (files : List (QMsg α)) (ids : List String) : List (QMsg α) :=
  files.filter (fun m => decide (m.id ∉ ids))

/-- `FileQueueClient.enqueue` at wall clock `now`: the file name is
`` `${Date.now()}-${randomUUID()}` ``. -/
def enqueueMsg (files : List (QMsg α)) (now : ℕ) (uuid : String) (payload : α) :
    List (QMsg α) :=
  files ++ [{ id := Nat.repr now ++ "-" ++ uuid, payload := payload, enqueuedAt := now }]

/-! ### Retry loop of `ClaudeClient.analyzeBatch` (claude/index.ts lines 83-148)

Each attempt either succeeds or throws with an HTTP status; `outcome k` is the
result of the attempt made while `attempt = k`, and `jitter k` is the value of
`Math.random() * 250` added before the k-th retry.  The fuel argument makes the
`while (attempt <= maxRetries)` loop structurally recursive; the fuel-exhausted
and loop-fallthrough branches both model the unreachable
`throw new Error("Failed to analyze batch after retries")` of line 148 as
`Except.error 0`. -/

inductive AttemptOutcome
  | ok
  | fail (status : ℕ)
deriving DecidableEq

/-- `status === 429 || (status >= 500 && status < 600)` (line 130). -/
def retryableStatus (status : ℕ) : Bool :=
  status == 429 || (decide (500 ≤ status) && decide (status < 600))

def retryGo (base mult maxR : ℕ) (outcome : ℕ → AttemptOutcome) (jitter : ℕ → ℕ) :
    ℕ → ℕ → List ℕ → Except ℕ Unit × List ℕ
  | _, 0, sleeps => (Except.error 0, sleeps)
  | attempt, fuel + 1, sleeps =>
    if maxR < attempt then (Except.error 0, sleeps)
    else
      match outcome attempt with
      | AttemptOutcome.ok => (Except.ok (), sleeps)
      | AttemptOutcome.fail status =>
        if retryableStatus status = false ∨ maxR < attempt + 1 then
          (Except.error status, sleeps)
        else
          retryGo base mult maxR outcome jitter (attempt + 1) fuel
            (sleeps ++ [base * mult ^ (attempt + 1 - 1) + jitter (attempt + 1)])

/-- `ClaudeClient.analyzeBatch`'s control flow when an API key is configured:
attempt counter starts at 0, defaults `initialBackoffMs = 1000`,
`backoffMultiplier = 2`.  Returns the call result and the list of backoff
sleeps actually performed, in order. -/
def analyzeBatchRetry (base mult maxR : ℕ) (outcome : ℕ → AttemptOutcome)
    (jitter : ℕ → ℕ) : Except ℕ Unit × List ℕ :=
  retryGo base mult maxR outcome jitter 0 (maxR + 1) []

/-! ### Batch ack discipline (analyzer.ts `pollOnce`, cli.ts `pollOnce`)

The stages are modelled against an oracle recording which externally-failable
step succeeds: the adapter call, each per-document archive append and output
enqueue, the trend enqueue (analyzer), and each message's external effects
(orchestrator).  `pollOnce` wraps the per-batch work in
`try { work; ack } catch { log }`, so an exception anywhere leaves the whole
batch un-acked and is logged rather than re-thrown; `ack` itself swallows
unlink failures. -/

structure AnalyzerWorld where
  analyzeResult : Except Unit (List SentimentDoc)
  appendOk : ℕ → Bool
  enqueueDocOk : ℕ → Bool
  enqueueTrendOk : Bool

/-- The per-document loop of `AnalyzerRunner.processBatch` (analyzer.ts lines
87-90): archive-append then enqueue each document, stopping at the first
exception. -/
def runDocEffects (w : AnalyzerWorld) : ℕ → List SentimentDoc → Except Unit Unit
  | _, [] => Except.ok ()
  | i, _ :: ds =>
    if w.appendOk i then
      if w.enqueueDocOk i then runDocEffects w (i + 1) ds
      else Except.error ()
    else Except.error ()

/-- `AnalyzerRunner.processBatch` (analyzer.ts lines 80-95) as seen through the
effect oracle: adapter call, per-document effects, then the trend enqueue
(performed only when `trendPointFromDocs` is non-null, i.e. the document list
is nonempty). -/
def processBatchModel (w : AnalyzerWorld) (batchLen : ℕ) : Except Unit Unit :=
  if batchLen = 0 then Except.ok ()
  else
    match w.analyzeResult with
    | Except.error e => Except.error e
    | Except.ok docs =>
      match runDocEffects w 0 docs with
      | Except.error e => Except.error e
      | Except.ok _ =>
        if docs.length = 0 then Except.ok ()
        else if w.enqueueTrendOk then Except.ok () else Except.error ()

structure PollResult where
  acked : List String
  loggedError : Bool
deriving DecidableEq

/-- `AnalyzerRunner.pollOnce` (analyzer.ts lines 97-108). -/
def analyzerPollOnce (w : AnalyzerWorld) (msgIds : List String) : PollResult :=
  if msgIds.length = 0 then { acked := [], loggedError := false }
  else
    match processBatchModel w msgIds.length with
    | Except.ok _ => { acked := msgIds, loggedError := false }
    | Except.error _ => { acked := [], loggedError := true }

/-- The message loop of `OrchestratorRunner.pollOnce` (cli.ts lines 206-209):
process messages in order, stopping at the first message whose external
effects throw; `msgOk i` is whether message `i`'s effects all succeed. -/
def orchProcessList (rules : List RuleDefinition) (msgOk : ℕ → Bool) :
    ℕ → RunState → List (ℕ × AnalysisEnvelope) → Option RunState
  | _, rs, [] => some rs
  | i, rs, m :: ms =>
    if msgOk i then orchProcessList rules msgOk (i + 1) (processMessage rules rs m) ms
    else none

/-- `OrchestratorRunner.pollOnce` (cli.ts lines 201-214). -/
def orchPollOnce (rules : List RuleDefinition) (msgOk : ℕ → Bool) (rs : RunState)
    (msgs : List (ℕ × AnalysisEnvelope)) (msgIds : List String) : PollResult :=
  if msgs.length = 0 then { acked := [], loggedError := false }
  else
    match orchProcessList rules msgOk 0 rs msgs with
    | some _ => { acked := msgIds, loggedError := false }
    | none => { acked := [], loggedError := true }

/-- All externally-failable steps of one analyzer batch succeeded: the adapter
call returned documents, every per-document archive append and output enqueue
succeeded, and (when there were documents) the trend-point enqueue succeeded. -/
def AnalyzerBatchSuccess (w : AnalyzerWorld) : Prop :=
  ∃ docs, w.analyzeResult = Except.ok docs ∧
    (∀ i < docs.length, w.appendOk i = true ∧ w.enqueueDocOk i = true) ∧
    (docs.length ≠ 0 → w.enqueueTrendOk = true)

/-- Consecutive trigger records (in append order) are at least one cooldown
apart. -/
def gapOK (recs : List TriggerRecord) : Prop :=
  recs.Pairwise (fun a b => a.triggeredAt + COOLDOWN_MS ≤ b.triggeredAt)

/-- The cooldown invariant: every trigger ever fired is no later than its
rule's entry in `lastRuleTrigger`, for every rule id the fired triggers are
pairwise at least one cooldown apart, and the capped visible history is a
sublist of the full fired log. -/
def TriggerInv (rs : RunState) : Prop :=
  (∀ rec ∈ rs.firedLog,
      rec.triggeredAt ≤ (lookupMap rs.lastRuleTrigger rec.ruleId).getD 0) ∧
    (∀ R : String, gapOK (rs.firedLog.filter (fun rec => rec.ruleId = R))) ∧
    rs.triggers.Sublist rs.firedLog

/-! ## C1: streaming mean and shares -/

theorem updateStateFromDoc_volume (s : OrchState) (d : SentimentDoc) :
    (updateStateFromDoc s d).volume = s.volume + 1 := rfl

theorem updateStateFromDoc_avg (s : OrchState) (d : SentimentDoc) (h : 0 ≤ s.volume) :
    (updateStateFromDoc s d).avgScore * ((s.volume : ℚ) + 1) =
      s.avgScore * (s.volume : ℚ) + d.score := by
  have hv : (0 : ℚ) ≤ (s.volume : ℚ) := by exact_mod_cast h
  have hne : ((s.volume : ℚ) + 1) ≠ 0 := by nlinarith
  show (s.avgScore + (d.score - s.avgScore) / (((s.volume + 1 : ℤ) : ℚ))) * _ = _
  push_cast
  field_simp
  ring

theorem updateStateFromDoc_pos (s : OrchState) (d : SentimentDoc) (h : 0 ≤ s.volume) :
    (updateStateFromDoc s d).posShare * ((s.volume : ℚ) + 1) =
      s.posShare * (s.volume : ℚ) + (if d.sentiment = Sentiment.pos then 1 else 0) := by
  have hv : (0 : ℚ) ≤ (s.volume : ℚ) := by exact_mod_cast h
  have hne : ((s.volume : ℚ) + 1) ≠ 0 := by nlinarith
  show (s.posShare * (((s.volume + 1 : ℤ) : ℚ) - 1) + _) / (((s.volume + 1 : ℤ) : ℚ)) * _ = _
  push_cast
  field_simp

theorem updateStateFromDoc_neg (s : OrchState) (d : SentimentDoc) (h : 0 ≤ s.volume) :
    (updateStateFromDoc s d).negShare * ((s.volume : ℚ) + 1) =
      s.negShare * (s.volume : ℚ) + (if d.sentiment = Sentiment.neg then 1 else 0) := by
  have hv : (0 : ℚ) ≤ (s.volume : ℚ) := by exact_mod_cast h
  have hne : ((s.volume : ℚ) + 1) ≠ 0 := by nlinarith
  show (s.negShare * (((s.volume + 1 : ℤ) : ℚ) - 1) + _) / (((s.volume + 1 : ℤ) : ℚ)) * _ = _
  push_cast
  field_simp

theorem foldDocs_stats (docs : List SentimentDoc) :
    ∀ s : OrchState, 0 ≤ s.volume →
      (docs.foldl updateStateFromDoc s).volume = s.volume + docs.length ∧
      (docs.foldl updateStateFromDoc s).avgScore * ((s.volume : ℚ) + (docs.length : ℚ)) =
        s.avgScore * (s.volume : ℚ) + (docs.map SentimentDoc.score).sum ∧
      (docs.foldl updateStateFromDoc s).posShare * ((s.volume : ℚ) + (docs.length : ℚ)) =
        s.posShare * (s.volume : ℚ) +
          ((docs.filter (fun d => decide (d.sentiment = Sentiment.pos))).length : ℚ) ∧
      (docs.foldl updateStateFromDoc s).negShare * ((s.volume : ℚ) + (docs.length : ℚ)) =
        s.negShare * (s.volume : ℚ) +
          ((docs.filter (fun d => decide (d.sentiment = Sentiment.neg))).length : ℚ) := by
  induction docs with
  | nil =>
    intro s _
    simp
  | cons d ds ih =>
    intro s hs
    have hs1 : 0 ≤ (updateStateFromDoc s d).volume := by
      rw [updateStateFromDoc_volume]; omega
    obtain ⟨hvol, havg, hpos, hneg⟩ := ih (updateStateFromDoc s d) hs1
    have hcast : (((updateStateFromDoc s d).volume : ℚ)) = (s.volume : ℚ) + 1 := by
      rw [updateStateFromDoc_volume]; push_cast; ring
    have h3 : (s.volume : ℚ) + ((d :: ds).length : ℚ) =
        ((updateStateFromDoc s d).volume : ℚ) + (ds.length : ℚ) := by
      rw [hcast]; simp only [List.length_cons]; push_cast; ring
    refine ⟨?_, ?_, ?_, ?_⟩
    · rw [List.foldl_cons, hvol, updateStateFromDoc_volume]
      simp only [List.length_cons]
      push_cast
      ring
    · rw [List.foldl_cons, h3, havg, hcast, updateStateFromDoc_avg s d hs]
      simp only [List.map_cons, List.sum_cons]
      ring
    · rw [List.foldl_cons, h3, hpos, hcast, updateStateFromDoc_pos s d hs]
      rcases eq_or_ne d.sentiment Sentiment.pos with hd | hd
      all_goals simp [List.filter_cons, hd]
      all_goals ring
    · rw [List.foldl_cons, h3, hneg, hcast, updateStateFromDoc_neg s d hs]
      rcases eq_or_ne d.sentiment Sentiment.neg with hd | hd
      all_goals simp [List.filter_cons, hd]
      all_goals ring

/-- C1: feeding any nonempty sequence of SentimentDocs one at a time into a
fresh OrchestratorState via `updateStateFromDoc` leaves `avgScore` equal to the
arithmetic mean of the scores, and `posShare`/`negShare` equal to the fraction
of documents labelled `pos`/`neg` (exact rational arithmetic, the
floating-point idealization). -/
theorem C1_streaming_stats (docs : List SentimentDoc) (h : 0 < docs.length) :
    (docs.foldl updateStateFromDoc initialState).volume = docs.length ∧
    (docs.foldl updateStateFromDoc initialState).avgScore =
      (docs.map SentimentDoc.score).sum / (docs.length : ℚ) ∧
    (docs.foldl updateStateFromDoc initialState).posShare =
      ((docs.filter (fun d => decide (d.sentiment = Sentiment.pos))).length : ℚ) /
        (docs.length : ℚ) ∧
    (docs.foldl updateStateFromDoc initialState).negShare =
      ((docs.filter (fun d => decide (d.sentiment = Sentiment.neg))).length : ℚ) /
        (docs.length : ℚ) := by
  obtain ⟨hvol, havg, hpos, hneg⟩ := foldDocs_stats docs initialState (by norm_num [initialState])
  have hlen : ((docs.length : ℚ)) ≠ 0 := by
    have : (0 : ℚ) < (docs.length : ℚ) := by exact_mod_cast h
    exact ne_of_gt this
  simp only [initialState] at hvol havg hpos hneg ⊢
  norm_num at hvol havg hpos hneg
  refine ⟨by omega, ?_, ?_, ?_⟩
  · rw [eq_div_iff hlen]; exact havg
  · rw [eq_div_iff hlen]; exact hpos
  · rw [eq_div_iff hlen]; exact hneg

/-- Witness for C1 at a concrete two-document input. -/
theorem C1_streaming_stats_witness :
    0 < ([{ postId := "p1", sentiment := Sentiment.pos, score := 1 / 2, topics := [],
            summary := "a" },
          { postId := "p2", sentiment := Sentiment.neu, score := 0, topics := [],
            summary := "b" }] : List SentimentDoc).length ∧
    (([{ postId := "p1", sentiment := Sentiment.pos, score := 1 / 2, topics := [],
         summary := "a" },
       { postId := "p2", sentiment := Sentiment.neu, score := 0, topics := [],
         summary := "b" }] : List SentimentDoc).foldl updateStateFromDoc initialState).avgScore =
      (1 : ℚ) / 4 := by
  constructor
  · decide
  · have h := C1_streaming_stats
      [{ postId := "p1", sentiment := Sentiment.pos, score := 1 / 2, topics := [],
         summary := "a" },
       { postId := "p2", sentiment := Sentiment.neu, score := 0, topics := [],
         summary := "b" }] (by decide)
    rw [h.2.1]
    norm_num

/-! ## C2: volume monotonicity -/

/-- C2 counterexample: with no rules loaded, feeding two sentiment-docs and
then a trend-point with `volume = 1` makes `OrchestratorState.volume` drop
from 2 to 1 between consecutive processed messages, so volume is not
monotonically non-decreasing over mixed envelope sequences. -/
theorem C2_counterexample :
    (runAll []
        [(1000, AnalysisEnvelope.sentimentDoc
            { postId := "p", sentiment := Sentiment.neu, score := 0, topics := [],
              summary := "s" }),
         (2000, AnalysisEnvelope.sentimentDoc
            { postId := "q", sentiment := Sentiment.neu, score := 0, topics := [],
              summary := "s" }),
         (3000, AnalysisEnvelope.trendPoint
            { ts := 3000, volume := 1, avgScore := 0, posShare := 0, negShare := 0,
              topTopics := [] })]).state.volume <
      (runAll []
        [(1000, AnalysisEnvelope.sentimentDoc
            { postId := "p", sentiment := Sentiment.neu, score := 0, topics := [],
              summary := "s" }),
         (2000, AnalysisEnvelope.sentimentDoc
            { postId := "q", sentiment := Sentiment.neu, score := 0, topics := [],
              summary := "s" })]).state.volume := by
  decide

/-- C2 (amended): volume is monotonically non-decreasing across sentiment-doc
transitions — each one increments it by exactly 1 — while a trend-point
transition replaces volume with the incoming point's volume, which may be
smaller than the current one. -/
theorem C2_volume_transitions (s : OrchState) (d : SentimentDoc) (tp : TrendPoint) :
    (updateStateFromDoc s d).volume = s.volume + 1 ∧
    s.volume ≤ (updateStateFromDoc s d).volume ∧
    (updateStateFromTrend s tp).volume = tp.volume := by
  refine ⟨rfl, ?_, rfl⟩
  rw [updateStateFromDoc_volume]
  omega

/-! ## C4: no duplicate suppression -/

/-- C4 counterexample: processing the same sentiment-doc twice from a fresh
state does not leave the state equal to processing it once — the orchestrator
performs no postId-based deduplication. -/
theorem C4_counterexample :
    updateStateFromDoc
        (updateStateFromDoc initialState
          { postId := "p1", sentiment := Sentiment.pos, score := 1 / 2, topics := [],
            summary := "s" })
        { postId := "p1", sentiment := Sentiment.pos, score := 1 / 2, topics := [],
          summary := "s" } ≠
      updateStateFromDoc initialState
        { postId := "p1", sentiment := Sentiment.pos, score := 1 / 2, topics := [],
          summary := "s" } := by
  decide

/-- C4 (amended): the orchestrator is not idempotent on re-delivered
sentiment-docs: it never inspects `postId`, so processing the same envelope a
second time increments volume again, and the resulting state always differs
from the once-processed state. -/
theorem C4_no_dedup (s : OrchState) (d : SentimentDoc) :
    (updateStateFromDoc (updateStateFromDoc s d) d).volume = s.volume + 2 ∧
    updateStateFromDoc (updateStateFromDoc s d) d ≠ updateStateFromDoc s d := by
  constructor
  · rw [updateStateFromDoc_volume, updateStateFromDoc_volume]
    omega
  · intro h
    have hv := congrArg OrchState.volume h
    rw [updateStateFromDoc_volume, updateStateFromDoc_volume] at hv
    omega

/-! ## C8: the trend-point transition -/

theorem takeLast_length_le (n : ℕ) (l : List α) : (takeLast n l).length ≤ n := by
  simp only [takeLast, List.length_drop]
  omega

theorem evalRule_state (now : ℕ) (rs : RunState) (rule : RuleDefinition) :
    (evalRule now rs rule).state = rs.state := by
  simp only [evalRule, triggerRule]
  split
  · split <;> rfl
  · rfl

theorem evaluateRules_state (rules : List RuleDefinition) (now : ℕ) :
    ∀ rs : RunState, (evaluateRules rules now rs).state = rs.state := by
  induction rules with
  | nil => intro rs; rfl
  | cons r rest ih =>
    intro rs
    show (evaluateRules rest now (evalRule now rs r)).state = rs.state
    rw [ih (evalRule now rs r), evalRule_state]

/-- C8 counterexample: a trend-point transition does not leave `topicCounts`
unchanged — from a fresh state, a point with `topTopics = ["y"]` and
`volume = 3` rewrites `topicCounts` from `{}` to `{y: 3}`. -/
theorem C8_counterexample :
    (updateStateFromTrend initialState
        { ts := 0, volume := 3, avgScore := 0, posShare := 0, negShare := 0,
          topTopics := ["y"] }).topicCounts ≠ initialState.topicCounts := by
  decide

/-- C8 (amended): a trend-point replaces volume/avgScore/posShare/negShare/
topTopics with the incoming point's values, appends the point to trendHistory
capped at the most recent 100, forwards the point to the analytics-publishing
endpoint, and additionally rebuilds `topicCounts` from the incoming
`topTopics`, giving the topic at index `i` the synthetic count `volume - i`;
`lastUpdated` is then stamped by `processMessage`, and there are no further
state fields. -/
theorem C8_trend_replacement (rules : List RuleDefinition) (rs : RunState)
    (now : ℕ) (tp : TrendPoint) :
    (updateStateFromTrend rs.state tp).volume = tp.volume ∧
    (updateStateFromTrend rs.state tp).avgScore = tp.avgScore ∧
    (updateStateFromTrend rs.state tp).posShare = tp.posShare ∧
    (updateStateFromTrend rs.state tp).negShare = tp.negShare ∧
    (updateStateFromTrend rs.state tp).topTopics = tp.topTopics ∧
    (updateStateFromTrend rs.state tp).trendHistory =
      takeLast 100 (rs.state.trendHistory ++ [tp]) ∧
    (updateStateFromTrend rs.state tp).trendHistory.length ≤ 100 ∧
    (updateStateFromTrend rs.state tp).topicCounts =
      tp.topTopics.enum.map (fun e => (e.2, tp.volume - (e.1 : ℤ))) ∧
    (processMessage rules rs (now, AnalysisEnvelope.trendPoint tp)).publishedTrends =
      rs.publishedTrends ++ [tp] ∧
    (processMessage rules rs (now, AnalysisEnvelope.trendPoint tp)).state =
      { updateStateFromTrend rs.state tp with lastUpdated := some now } := by
  refine ⟨rfl, rfl, rfl, rfl, rfl, rfl, takeLast_length_le 100 _, rfl, ?_, ?_⟩
  · show (evaluateRules rules now _).publishedTrends = _
    have h : ∀ (rls : List RuleDefinition) (n : ℕ) (x : RunState),
        (evaluateRules rls n x).publishedTrends = x.publishedTrends := by
      intro rls
      induction rls with
      | nil => intro n x; rfl
      | cons r rest ih =>
        intro n x
        show (evaluateRules rest n (evalRule n x r)).publishedTrends = _
        rw [ih]
        simp only [evalRule, triggerRule]
        split
        · split <;> rfl
        · rfl
    rw [h]
  · show (evaluateRules rules now _).state = _
    rw [evaluateRules_state]

/-! ## C3: rule cooldown -/

theorem lookupMap_setMap_self (m : List (String × ℕ)) (k : String) (v : ℕ) :
    lookupMap (setMap m k v) k = some v := by
  induction m with
  | nil => simp [setMap, lookupMap]
  | cons e rest ih =>
    by_cases h : e.1 = k
    · simp [setMap, h, lookupMap]
    · simp [setMap, h, lookupMap, ih]

theorem lookupMap_setMap_other (m : List (String × ℕ)) (k k' : String) (v : ℕ)
    (hne : k' ≠ k) : lookupMap (setMap m k v) k' = lookupMap m k' := by
  induction m with
  | nil =>
    simp only [setMap, lookupMap]
    rw [if_neg (fun hk => hne hk.symm)]
  | cons e rest ih =>
    by_cases h : e.1 = k
    · simp only [setMap, if_pos h, lookupMap]
      rw [if_neg (fun hk => hne hk.symm), if_neg (by rw [h]; exact fun hk => hne hk.symm)]
    · simp only [setMap, if_neg h, lookupMap, ih]

theorem evalRule_inv (now : ℕ) (rs : RunState) (rule : RuleDefinition)
    (h : TriggerInv rs) : TriggerInv (evalRule now rs rule) := by
  obtain ⟨hbound, hgap, hsub⟩ := h
  simp only [evalRule, triggerRule]
  split
  case isFalse => exact ⟨hbound, hgap, hsub⟩
  case isTrue hcond =>
    split
    case isTrue => exact ⟨hbound, hgap, hsub⟩
    case isFalse hcool =>
      have hnow : (lookupMap rs.lastRuleTrigger rule.id).getD 0 + COOLDOWN_MS ≤ now := by
        simp only [COOLDOWN_MS] at hcool ⊢
        omega
      refine ⟨?_, ?_, ?_⟩
      · intro rec' hmem'
        rcases List.mem_append.mp hmem' with hold | hnew
        · by_cases hr : rec'.ruleId = rule.id
          · have hb := hbound rec' hold
            rw [hr] at hb ⊢
            rw [lookupMap_setMap_self]
            simp only [Option.getD_some]
            omega
          · rw [lookupMap_setMap_other _ _ _ _ hr]
            exact hbound rec' hold
        · rcases List.mem_singleton.mp hnew with rfl
          simp only [lookupMap_setMap_self, Option.getD_some]
          exact le_rfl
      · intro R
        rw [List.filter_append]
        by_cases hR : rule.id = R
        · have hfr : List.filter (fun rec => decide (rec.ruleId = R))
              [({ ruleId := rule.id, agentName := rule.agentName, message := rule.message,
                  triggeredAt := now } : TriggerRecord)] =
              [{ ruleId := rule.id, agentName := rule.agentName, message := rule.message,
                 triggeredAt := now }] := by
            simp [hR]
          rw [hfr]
          unfold gapOK
          rw [List.pairwise_append]
          refine ⟨hgap R, List.pairwise_singleton _ _, ?_⟩
          intro a ha b hb
          rcases List.mem_singleton.mp hb with rfl
          rcases List.mem_filter.mp ha with ⟨hamem, haR⟩
          have haR' : a.ruleId = R := of_decide_eq_true haR
          have hb := hbound a hamem
          rw [haR', ← hR] at hb
          simp only
          omega
        · have hfr : List.filter (fun rec => decide (rec.ruleId = R))
              [({ ruleId := rule.id, agentName := rule.agentName, message := rule.message,
                  triggeredAt := now } : TriggerRecord)] = [] := by
            simp [hR]
          rw [hfr, List.append_nil]
          exact hgap R
      · exact List.Sublist.trans (takeLast_sublist _ _)
          (List.Sublist.append hsub (List.Sublist.refl _))

theorem evaluateRules_inv (rules : List RuleDefinition) (now : ℕ) :
    ∀ rs : RunState, TriggerInv rs → TriggerInv (evaluateRules rules now rs) := by
  induction rules with
  | nil => intro rs h; exact h
  | cons r rest ih =>
    intro rs h
    exact ih (evalRule now rs r) (evalRule_inv now rs r h)

theorem processMessage_inv (rules : List RuleDefinition) (rs : RunState)
    (msg : ℕ × AnalysisEnvelope) (h : TriggerInv rs) :
    TriggerInv (processMessage rules rs msg) := by
  have hmid : ∀ rs1 : RunState, rs1.triggers = rs.triggers →
      rs1.lastRuleTrigger = rs.lastRuleTrigger → rs1.firedLog = rs.firedLog →
      TriggerInv rs1 := by
    intro rs1 h1 h2 h3
    unfold TriggerInv
    rw [h1, h2, h3]
    exact h
  unfold processMessage
  rcases msg with ⟨now, env⟩
  cases env with
  | sentimentDoc d => exact evaluateRules_inv rules now _ (hmid _ rfl rfl rfl)
  | trendPoint tp => exact evaluateRules_inv rules now _ (hmid _ rfl rfl rfl)

theorem runAll_inv (rules : List RuleDefinition) (msgs : List (ℕ × AnalysisEnvelope)) :
    TriggerInv (runAll rules msgs) := by
  have hinit : TriggerInv initialRunState := by
    refine ⟨?_, ?_, ?_⟩
    · intro rec hmem
      simp [initialRunState] at hmem
    · intro R
      simp [initialRunState, gapOK]
    · simp [initialRunState]
  unfold runAll
  have : ∀ (l : List (ℕ × AnalysisEnvelope)) (rs : RunState), TriggerInv rs →
      TriggerInv (l.foldl (processMessage rules) rs) := by
    intro l
    induction l with
    | nil => intro rs h; exact h
    | cons m ms ih =>
      intro rs h
      exact ih (processMessage rules rs m) (processMessage_inv rules rs m h)
  exact this msgs initialRunState hinit

/-- C3: for every rule id R the orchestrator never appends two TriggerRecords
for R less than one 5-minute cooldown apart — over arbitrary rule sets,
envelope sequences and timestamps, both in the uncapped log of every trigger
ever fired and in the retained history; and for a rule with
`minVolume = 0, threshold = 0`, two qualifying trend-points arriving 200s
apart yield exactly one TriggerRecord while two arriving 300.001s apart yield
two. -/
theorem C3_rule_cooldown :
    (∀ (rules : List RuleDefinition) (msgs : List (ℕ × AnalysisEnvelope)) (R : String),
        gapOK ((runAll rules msgs).firedLog.filter (fun rec => rec.ruleId = R)) ∧
        gapOK ((runAll rules msgs).triggers.filter (fun rec => rec.ruleId = R))) ∧
    (runAll [{ id := "r", threshold := 0, minVolume := 0, agentName := "a", message := "m" }]
        [(1000000, AnalysisEnvelope.trendPoint
            { ts := 0, volume := 1, avgScore := -(1 / 2), posShare := 0, negShare := 0,
              topTopics := [] }),
         (1200000, AnalysisEnvelope.trendPoint
            { ts := 0, volume := 1, avgScore := -(1 / 2), posShare := 0, negShare := 0,
              topTopics := [] })]).triggers.length = 1 ∧
    (runAll [{ id := "r", threshold := 0, minVolume := 0, agentName := "a", message := "m" }]
        [(1000000, AnalysisEnvelope.trendPoint
            { ts := 0, volume := 1, avgScore := -(1 / 2), posShare := 0, negShare := 0,
              topTopics := [] }),
         (1300001, AnalysisEnvelope.trendPoint
            { ts := 0, volume := 1, avgScore := -(1 / 2), posShare := 0, negShare := 0,
              topTopics := [] })]).triggers.length = 2 := by
  refine ⟨?_, by with_unfolding_all decide, by with_unfolding_all decide⟩
  intro rules msgs R
  obtain ⟨_, hgap, hsub⟩ := runAll_inv rules msgs
  exact ⟨hgap R, (hgap R).sublist (hsub.filter _)⟩

/-! ## C5: batch ack discipline -/

theorem runDocEffects_ok (w : AnalyzerWorld) :
    ∀ (docs : List SentimentDoc) (i0 : ℕ),
      runDocEffects w i0 docs = Except.ok () ↔
        ∀ j < docs.length, w.appendOk (i0 + j) = true ∧ w.enqueueDocOk (i0 + j) = true := by
  intro docs
  induction docs with
  | nil =>
    intro i0
    simp [runDocEffects]
  | cons d ds ih =>
    intro i0
    simp only [runDocEffects]
    by_cases ha : w.appendOk i0 = true
    · by_cases he : w.enqueueDocOk i0 = true
      · rw [if_pos ha, if_pos he, ih (i0 + 1)]
        constructor
        · intro h j hj
          cases j with
          | zero => simpa using ⟨ha, he⟩
          | succ m =>
            have e : i0 + (m + 1) = i0 + 1 + m := by omega
            rw [e]
            exact h m (by simpa using hj)
        · intro h j hj
          have e : i0 + 1 + j = i0 + (j + 1) := by omega
          rw [e]
          exact h (j + 1) (by simpa using hj)
      · rw [if_pos ha, if_neg he]
        constructor
        · intro h
          cases h
        · intro h
          exact absurd (by simpa using (h 0 (by simp)).2) he
    · rw [if_neg ha]
      constructor
      · intro h
        cases h
      · intro h
        exact absurd (by simpa using (h 0 (by simp)).1) ha

theorem processBatchModel_ok (w : AnalyzerWorld) (n : ℕ) (hn : n ≠ 0) :
    processBatchModel w n = Except.ok () ↔ AnalyzerBatchSuccess w := by
  simp only [processBatchModel, if_neg hn]
  cases hres : w.analyzeResult with
  | error e =>
    simp [AnalyzerBatchSuccess, hres]
  | ok docs =>
    simp only [AnalyzerBatchSuccess, hres, Except.ok.injEq]
    cases hrun : runDocEffects w 0 docs with
    | error e =>
      constructor
      · intro h
        cases h
      · rintro ⟨ds, rfl, hall, _⟩
        have hok : runDocEffects w 0 docs = Except.ok () := by
          rw [runDocEffects_ok]
          intro j hj
          simpa using hall j hj
        rw [hok] at hrun
        cases hrun
    | ok u =>
      have hall : ∀ j < docs.length, w.appendOk j = true ∧ w.enqueueDocOk j = true := by
        have := (runDocEffects_ok w docs 0).mp (by rw [hrun])
        intro j hj
        simpa using this j hj
      by_cases hd : docs.length = 0
      · rw [if_pos hd]
        constructor
        · intro _
          exact ⟨docs, rfl, hall, fun h => absurd hd h⟩
        · intro _
          rfl
      · rw [if_neg hd]
        by_cases ht : w.enqueueTrendOk = true
        · rw [if_pos ht]
          constructor
          · intro _
            exact ⟨docs, rfl, hall, fun _ => ht⟩
          · intro _
            rfl
        · rw [if_neg ht]
          constructor
          · intro h
            cases h
          · rintro ⟨ds, rfl, _, htrend⟩
            exact absurd (htrend hd) ht

theorem orchProcessList_isSome (rules : List RuleDefinition) (msgOk : ℕ → Bool) :
    ∀ (msgs : List (ℕ × AnalysisEnvelope)) (i0 : ℕ) (rs : RunState),
      (orchProcessList rules msgOk i0 rs msgs).isSome = true ↔
        ∀ j < msgs.length, msgOk (i0 + j) = true := by
  intro msgs
  induction msgs with
  | nil =>
    intro i0 rs
    simp [orchProcessList]
  | cons m ms ih =>
    intro i0 rs
    simp only [orchProcessList]
    by_cases h : msgOk i0 = true
    · rw [if_pos h, ih (i0 + 1)]
      constructor
      · intro hrest j hj
        cases j with
        | zero => simpa using h
        | succ k =>
          have e : i0 + (k + 1) = i0 + 1 + k := by omega
          rw [e]
          exact hrest k (by simpa using hj)
      · intro hrest j hj
        have e : i0 + 1 + j = i0 + (j + 1) := by omega
        rw [e]
        exact hrest (j + 1) (by simpa using hj)
    · rw [if_neg h]
      simp only [Option.isSome_none, Bool.false_eq_true, false_iff]
      intro hrest
      exact absurd (by simpa using hrest 0 (by simp)) h

/-- C5: a stage acks its dequeued batch exactly when every externally-failable
step of that batch succeeded, and otherwise acks nothing and records the
exception as a logged error (never a crash).  For the analyzer the steps are
the adapter call, every per-document archive append and output enqueue, and
the trend enqueue; the orchestrator drains its batch under the same
discipline, message by message. -/
theorem C5_ack_discipline (w : AnalyzerWorld) (msgIds : List String)
    (rules : List RuleDefinition) (msgOk : ℕ → Bool) (rs : RunState)
    (msgs : List (ℕ × AnalysisEnvelope)) (qids : List String)
    (h1 : msgIds ≠ []) (h2 : msgs ≠ []) :
    ((analyzerPollOnce w msgIds).acked = msgIds ∨ (analyzerPollOnce w msgIds).acked = []) ∧
    ((analyzerPollOnce w msgIds).acked = msgIds ∧
        (analyzerPollOnce w msgIds).loggedError = false ↔ AnalyzerBatchSuccess w) ∧
    ((analyzerPollOnce w msgIds).loggedError = true →
        (analyzerPollOnce w msgIds).acked = []) ∧
    ((orchPollOnce rules msgOk rs msgs qids).acked = qids ∨
        (orchPollOnce rules msgOk rs msgs qids).acked = []) ∧
    ((orchPollOnce rules msgOk rs msgs qids).acked = qids ∧
        (orchPollOnce rules msgOk rs msgs qids).loggedError = false ↔
      ∀ j < msgs.length, msgOk j = true) := by
  have hlen1 : msgIds.length ≠ 0 := fun h => h1 (List.length_eq_zero.mp h)
  have hlen2 : msgs.length ≠ 0 := fun h => h2 (List.length_eq_zero.mp h)
  have hana : analyzerPollOnce w msgIds =
      (match processBatchModel w msgIds.length with
        | Except.ok _ => { acked := msgIds, loggedError := false }
        | Except.error _ => { acked := [], loggedError := true }) := by
    simp [analyzerPollOnce, hlen1]
  have horc : orchPollOnce rules msgOk rs msgs qids =
      (match orchProcessList rules msgOk 0 rs msgs with
        | some _ => { acked := qids, loggedError := false }
        | none => { acked := [], loggedError := true }) := by
    simp [orchPollOnce, hlen2]
  refine ⟨?_, ?_, ?_, ?_, ?_⟩
  · rw [hana]
    cases processBatchModel w msgIds.length with
    | ok u => exact Or.inl rfl
    | error e => exact Or.inr rfl
  · rw [hana]
    cases hpb : processBatchModel w msgIds.length with
    | ok u =>
      simp only [true_and]
      have := (processBatchModel_ok w msgIds.length hlen1).mp (by rw [hpb])
      simp [this]
    | error e =>
      simp only
      constructor
      · rintro ⟨hack, _⟩
        exact absurd hack.symm h1
      · intro hs
        have := (processBatchModel_ok w msgIds.length hlen1).mpr hs
        rw [hpb] at this
        cases this
  · rw [hana]
    cases processBatchModel w msgIds.length with
    | ok u =>
      intro h
      cases h
    | error e => intro _; rfl
  · rw [horc]
    cases orchProcessList rules msgOk 0 rs msgs with
    | some u => exact Or.inl rfl
    | none => exact Or.inr rfl
  · rw [horc]
    have hiff := orchProcessList_isSome rules msgOk msgs 0 rs
    simp only [Nat.zero_add] at hiff
    cases hol : orchProcessList rules msgOk 0 rs msgs with
    | some u =>
      have := hiff.mp (by rw [hol]; rfl)
      exact ⟨fun _ => this, fun _ => ⟨rfl, rfl⟩⟩
    | none =>
      simp only
      constructor
      · rintro ⟨_, hlog⟩
        cases hlog
      · intro hs
        have := hiff.mpr hs
        rw [hol] at this
        cases this

/-- Witness for C5 at a concrete one-message batch in each stage. -/
theorem C5_ack_discipline_witness :
    (analyzerPollOnce
        { analyzeResult := Except.ok
            [{ postId := "p", sentiment := Sentiment.neu, score := 0, topics := [],
               summary := "s" }],
          appendOk := fun _ => true,
          enqueueDocOk := fun _ => true,
          enqueueTrendOk := true } ["m1"]).acked = ["m1"] := by
  have h := C5_ack_discipline
    { analyzeResult := Except.ok
        [{ postId := "p", sentiment := Sentiment.neu, score := 0, topics := [],
           summary := "s" }],
      appendOk := fun _ => true,
      enqueueDocOk := fun _ => true,
      enqueueTrendOk := true } ["m1"] [] (fun _ => true) initialRunState
    [(0, AnalysisEnvelope.sentimentDoc
        { postId := "p", sentiment := Sentiment.neu, score := 0, topics := [],
          summary := "s" })] ["q1"] (by simp) (by simp)
  refine (h.2.1.mpr ?_).1
  exact ⟨_, rfl, fun i _ => ⟨rfl, rfl⟩, fun _ => rfl⟩

/-! ## C6: retry policy -/

theorem retryGo_sleeps_le (base mult maxR : ℕ) (outcome : ℕ → AttemptOutcome)
    (jitter : ℕ → ℕ) :
    ∀ (fuel attempt : ℕ) (sleeps : List ℕ),
      (retryGo base mult maxR outcome jitter attempt fuel sleeps).2.length ≤
        sleeps.length + (maxR - attempt) := by
  intro fuel
  induction fuel with
  | zero =>
    intro attempt sleeps
    simp [retryGo]
  | succ f ih =>
    intro attempt sleeps
    simp only [retryGo]
    by_cases h1 : maxR < attempt
    · rw [if_pos h1]
      simp
    · rw [if_neg h1]
      cases houtc : outcome attempt with
      | ok => simp
      | fail status =>
        dsimp only
        by_cases h2 : retryableStatus status = false ∨ maxR < attempt + 1
        · rw [if_pos h2]
          simp
        · rw [if_neg h2]
          push_neg at h2
          refine le_trans (ih (attempt + 1) _) ?_
          simp only [List.length_append, List.length_singleton]
          omega

/-- C6: with the default configuration (base 1000ms, multiplier 2, maxRetries
3) the retry loop (a) turns two 429s followed by a success into a successful
call with exactly two backoff sleeps of `1000 + jitter` and `2000 + jitter`
milliseconds, (b) propagates a non-retryable first failure immediately with no
sleep, (c) after persistent 429s performs exactly three backoffs
(1000/2000/4000ms plus jitter) and then propagates the failure, and (d) never
sleeps more than `maxRetries` times for any outcome sequence. -/
theorem C6_retry_policy :
    (∀ j : ℕ → ℕ,
      analyzeBatchRetry 1000 2 3
          (fun k => if k < 2 then AttemptOutcome.fail 429 else AttemptOutcome.ok) j =
        (Except.ok (), [1000 + j 1, 2000 + j 2])) ∧
    (∀ (j : ℕ → ℕ) (outcome : ℕ → AttemptOutcome) (status : ℕ),
      retryableStatus status = false → outcome 0 = AttemptOutcome.fail status →
      analyzeBatchRetry 1000 2 3 outcome j = (Except.error status, [])) ∧
    (∀ j : ℕ → ℕ,
      analyzeBatchRetry 1000 2 3 (fun _ => AttemptOutcome.fail 429) j =
        (Except.error 429, [1000 + j 1, 2000 + j 2, 4000 + j 3])) ∧
    (∀ (outcome : ℕ → AttemptOutcome) (j : ℕ → ℕ) (maxR : ℕ),
      (analyzeBatchRetry 1000 2 maxR outcome j).2.length ≤ maxR) := by
  refine ⟨?_, ?_, ?_, ?_⟩
  · intro j
    norm_num [analyzeBatchRetry, retryGo, retryableStatus]
  · intro j outcome status hnr h0
    norm_num [analyzeBatchRetry, retryGo, h0, hnr]
  · intro j
    norm_num [analyzeBatchRetry, retryGo, retryableStatus]
  · intro outcome j maxR
    have h := retryGo_sleeps_le 1000 2 maxR outcome j (maxR + 1) 0 []
    simpa using h

/-- Witness for C6: a 400 response is not retryable and propagates with no
backoff sleep. -/
theorem C6_retry_policy_witness :
    analyzeBatchRetry 1000 2 3 (fun _ => AttemptOutcome.fail 400) (fun _ => 0) =
      (Except.error 400, []) :=
  C6_retry_policy.2.1 (fun _ => 0) (fun _ => AttemptOutcome.fail 400) 400 (by decide) rfl

/-! ## C7: deterministic keyword fallback -/

/-- C7 counterexample: the fallback copies `meta.topics` into the document
unvalidated, so a schema-valid CleanPost whose `meta.topics` holds six entries
yields a SentimentDoc with six topics, which `SentimentDocSchema`
(`topics: max 5`) rejects. -/
theorem C7_counterexample :
    ¬ ∀ d ∈ mockAnalyzeBatch
        [{ id := "p1", textClean := "x",
           metaTopics := ["a", "a", "a", "a", "a", "a"] }], SentimentDocValid d := by
  with_unfolding_all decide

/-- C7 (amended): with no API credential the deterministic keyword fallback
produces schema-valid documents for every batch whose posts carry at most five
nonempty `meta.topics` entries (CleanPost's schema does not bound
`meta.topics`, so this proviso is needed); on the two posts
"I love the widget" / "I hate the widget" it yields `pos, 0.6` and
`neg, -0.6`, and the analyzer's trend point over those two documents is
`volume 2, avgScore 0, posShare 0.5, negShare 0.5`. -/
theorem C7_fallback (posts : List CleanPost)
    (hp : ∀ p ∈ posts, 1 ≤ p.id.length ∧ 1 ≤ p.textClean.length ∧
        p.metaTopics.length ≤ 5 ∧ ∀ t ∈ p.metaTopics, 1 ≤ t.length) :
    (∀ d ∈ mockAnalyzeBatch posts, SentimentDocValid d) ∧
    mockAnalyzeBatch
        [{ id := "a1", textClean := "I love the widget", metaTopics := [] },
         { id := "a2", textClean := "I hate the widget", metaTopics := [] }] =
      [{ postId := "a1", sentiment := Sentiment.pos, score := 3 / 5, topics := [],
         summary := "I love the widget" },
       { postId := "a2", sentiment := Sentiment.neg, score := -(3 / 5), topics := [],
         summary := "I hate the widget" }] ∧
    trendPointFromDocs 0
        (mockAnalyzeBatch
          [{ id := "a1", textClean := "I love the widget", metaTopics := [] },
           { id := "a2", textClean := "I hate the widget", metaTopics := [] }]) =
      some { ts := 0, volume := 2, avgScore := 0, posShare := 1 / 2, negShare := 1 / 2,
             topTopics := [] } := by
  refine ⟨?_, by with_unfolding_all decide, by with_unfolding_all decide⟩
  intro d hd
  rcases List.mem_map.mp hd with ⟨p, hpmem, rfl⟩
  obtain ⟨hid, htext, hlen, htop⟩ := hp p hpmem
  have hscore : -1 ≤ (mockAnalyzeDoc p).score ∧ (mockAnalyzeDoc p).score ≤ 1 := by
    unfold mockAnalyzeDoc
    dsimp only
    split
    · norm_num
    · split
      · norm_num
      · norm_num
  have htext' : 1 ≤ p.textClean.data.length := htext
  refine ⟨hid, hscore.1, hscore.2, hlen, htop, ?_⟩
  show 1 ≤ (String.mk (p.textClean.data.take 120)).length
  have hsumlen : (String.mk (p.textClean.data.take 120)).length =
      (p.textClean.data.take 120).length := rfl
  rw [hsumlen, List.length_take]
  omega

/-- Witness for C7 at a concrete one-post batch. -/
theorem C7_fallback_witness :
    SentimentDocValid (mockAnalyzeDoc { id := "p", textClean := "good", metaTopics := [] }) := by
  have h := C7_fallback [{ id := "p", textClean := "good", metaTopics := [] }] (by decide)
  exact h.1 _ (by simp [mockAnalyzeBatch])

/-! ## C9: queue dequeue semantics -/

/-- C9: `dequeueBatch` returns at most `maxItems` messages, all of them real
queue entries, in non-decreasing enqueue order whenever filename order refines
enqueue order (which `Date.now()`-prefixed ids guarantee within a run); it is
non-destructive, so a consumer that crashes before acking sees the identical
batch on the next call; acked ids are removed for good, un-acked messages stay
visible, and a large enough `maxItems` returns every pending message. -/
theorem C9_dequeue {α : Type} (files : List (QMsg α)) (n : ℕ) (ids : List String)
    (hcomp : ∀ m1 ∈ files, ∀ m2 ∈ files, m1.id ≤ m2.id → m1.enqueuedAt ≤ m2.enqueuedAt) :
    (dequeueBatch files n).length ≤ n ∧
    (∀ m ∈ dequeueBatch files n, m ∈ files) ∧
    (dequeueBatch files n).Pairwise (fun a b => a.enqueuedAt ≤ b.enqueuedAt) ∧
    dequeueBatch (ackIds files []) n = dequeueBatch files n ∧
    (∀ m ∈ ackIds files ids, m.id ∉ ids) ∧
    (∀ m ∈ files, m.id ∉ ids → m ∈ ackIds files ids) ∧
    (files.length ≤ n → ∀ m ∈ files, m ∈ dequeueBatch files n) := by
  have hmemsort : ∀ m : QMsg α, m ∈ insSort idLe files ↔ m ∈ files := fun m =>
    mem_insSort idLe files m
  refine ⟨?_, ?_, ?_, ?_, ?_, ?_, ?_⟩
  · exact List.length_take_le n _
  · intro m hm
    exact (hmemsort m).mp (List.take_subset n _ hm)
  · have hsorted : (insSort idLe files).Pairwise (fun a b => idLe a b = true) := by
      refine pairwise_insSort idLe ?_ ?_ files
      · intro a b
        rcases le_total a.id b.id with h | h
        · exact Or.inl (decide_eq_true h)
        · exact Or.inr (decide_eq_true h)
      · intro a b c hab hbc
        exact decide_eq_true (le_trans (of_decide_eq_true hab) (of_decide_eq_true hbc))
    have himp : (insSort idLe files).Pairwise (fun a b => a.enqueuedAt ≤ b.enqueuedAt) := by
      refine List.Pairwise.imp_of_mem ?_ hsorted
      intro a b ha hb hab
      exact hcomp a ((hmemsort a).mp ha) b ((hmemsort b).mp hb) (of_decide_eq_true hab)
    exact himp.sublist (List.take_sublist n _)
  · have : ackIds files [] = files := by
      simp [ackIds]
    rw [this]
  · intro m hm
    exact of_decide_eq_true (List.mem_filter.mp hm).2
  · intro m hm hnot
    exact List.mem_filter.mpr ⟨hm, decide_eq_true hnot⟩
  · intro hlen m hm
    have hfull : (insSort idLe files).take n = insSort idLe files :=
      List.take_of_length_le (by rw [length_insSort]; exact hlen)
    show m ∈ (insSort idLe files).take n
    rw [hfull]
    exact (hmemsort m).mpr hm

/-- Witness for C9 on a concrete two-message queue with timestamp-prefixed
ids. -/
theorem C9_dequeue_witness :
    ((dequeueBatch
        [({ id := "1700000000001-b", payload := 2, enqueuedAt := 1700000000001 } : QMsg ℕ),
         { id := "1700000000000-a", payload := 1, enqueuedAt := 1700000000000 }] 2).length ≤ 2) ∧
    (dequeueBatch
        [({ id := "1700000000001-b", payload := 2, enqueuedAt := 1700000000001 } : QMsg ℕ),
         { id := "1700000000000-a", payload := 1, enqueuedAt := 1700000000000 }] 2).Pairwise
      (fun a b => a.enqueuedAt ≤ b.enqueuedAt) := by
  have h := C9_dequeue
    [({ id := "1700000000001-b", payload := 2, enqueuedAt := 1700000000001 } : QMsg ℕ),
     { id := "1700000000000-a", payload := 1, enqueuedAt := 1700000000000 }] 2
    ["1700000000000-a"] (by with_unfolding_all decide)
  exact ⟨h.1, h.2.2.1⟩

/-! ## C10: topic ranking -/

/-- The count sort is non-increasing in the counts and stable: entries of any
fixed count keep exactly the order of the input list. -/
theorem insSortCounts_sorted_stable (l : List (String × ℤ)) :
    (insSort countLe l).Pairwise (fun a b => b.2 ≤ a.2) ∧
    ∀ c : ℤ, (insSort countLe l).filter (fun e => e.2 = c) =
      l.filter (fun e => e.2 = c) := by
  constructor
  · have hsorted : (insSort countLe l).Pairwise (fun a b => countLe a b = true) := by
      refine pairwise_insSort countLe ?_ ?_ l
      · intro a b
        rcases le_total b.2 a.2 with h | h
        · exact Or.inl (decide_eq_true h)
        · exact Or.inr (decide_eq_true h)
      · intro a b c hab hbc
        exact decide_eq_true (le_trans (of_decide_eq_true hbc) (of_decide_eq_true hab))
    exact hsorted.imp (fun hab => of_decide_eq_true hab)
  · intro c
    refine filter_insSort countLe (fun e => decide (e.2 = c)) ?_ l
    intro x y hx hy
    have hxc : x.2 = c := of_decide_eq_true hx
    have hyc : y.2 = c := of_decide_eq_true hy
    exact decide_eq_true (by rw [hxc, hyc])

/-- C10 counterexample: the orchestrator's `topicCounts` is a plain object, so
`Object.entries` enumerates the canonical array-index key "2024" before
"stadium" regardless of insertion order; with equal counts the stable sort
keeps that enumeration order, and `topTopics` lists "2024" first even though
"stadium" was inserted into the map first. -/
theorem C10_counterexample :
    topTopicsFromCounts [("stadium", 5), ("2024", 5)] = ["2024", "stadium"] ∧
    topTopicsFromCounts [("stadium", 5), ("2024", 5)] ≠ ["stadium", "2024"] := by
  decide

/-- C10 (amended): both rankings take the top 5 entries by count descending
via a stable sort, so ties keep the enumeration order of the underlying
container.  For the analyzer's per-batch `Map` counter that enumeration is
first-seen insertion order, as claimed.  For the orchestrator's plain-object
`topicCounts`, `Object.entries` enumerates canonical array-index keys first in
ascending numeric order and only the remaining keys in insertion order, so
ties are broken by insertion order only among topics that are not canonical
array indices — as in the `{a:5, b:5, c:3}` example, which still ranks `a`
before `b`. -/
theorem C10_topic_ranking :
    (∀ counts : List (String × ℤ),
      (insSort countLe (objectEntries counts)).Pairwise (fun a b => b.2 ≤ a.2) ∧
      (∀ c : ℤ, (insSort countLe (objectEntries counts)).filter (fun e => e.2 = c) =
        (objectEntries counts).filter (fun e => e.2 = c)) ∧
      (topTopicsFromCounts counts).length ≤ 5) ∧
    (∀ counts : List (String × ℤ),
      (∀ e ∈ counts, isArrayIndexKey e.1 = false) → objectEntries counts = counts) ∧
    (∀ docCounts : List (String × ℤ),
      (insSort countLe docCounts).Pairwise (fun a b => b.2 ≤ a.2) ∧
      ∀ c : ℤ, (insSort countLe docCounts).filter (fun e => e.2 = c) =
        docCounts.filter (fun e => e.2 = c)) ∧
    topTopicsFromCounts [("a", 5), ("b", 5), ("c", 3)] = ["a", "b", "c"] ∧
    topTopicsOfDocs
        [{ postId := "p1", sentiment := Sentiment.neu, score := 0, topics := ["a", "b"],
           summary := "s" },
         { postId := "p2", sentiment := Sentiment.neu, score := 0,
           topics := ["a", "b", "c"], summary := "s" }] = ["a", "b", "c"] := by
  refine ⟨?_, ?_, insSortCounts_sorted_stable, by decide, by decide⟩
  · intro counts
    obtain ⟨hsorted, hstable⟩ := insSortCounts_sorted_stable (objectEntries counts)
    refine ⟨hsorted, hstable, ?_⟩
    show (((insSort countLe (objectEntries counts)).take 5).map Prod.fst).length ≤ 5
    rw [List.length_map]
    exact List.length_take_le 5 _
  · intro counts hno
    have hpos : counts.filter (fun e => isArrayIndexKey e.1) = [] := by
      rw [List.filter_eq_nil_iff]
      intro e he
      simp [hno e he]
    have hneg : counts.filter (fun e => !isArrayIndexKey e.1) = counts := by
      rw [List.filter_eq_self]
      intro e he
      simp [hno e he]
    rw [objectEntries, hpos, hneg]
    rfl

/-- Witness for C10: a counter with no array-index keys enumerates in pure
insertion order. -/
theorem C10_topic_ranking_witness :
    objectEntries [("stadium", (5 : ℤ)), ("fans", 3)] = [("stadium", 5), ("fans", 3)] :=
  C10_topic_ranking.2.1 [("stadium", (5 : ℤ)), ("fans", 3)] (by decide)

end Spec2Proof
